import Mathlib

/-!
Verification of the `ieptool` election-process core (`src/process.rs` and the
step/eval handlers of `src/main.rs`).

Modelling conventions:
* Rust `HashMap<K, V>` is modelled as an association list `List (K × V)` whose
  keys are unique.  A `HashMap`'s iteration order is arbitrary, so every
  theorem that depends on it is accompanied by an order-independence lemma
  (permutation invariance of the derived result).
* Rust `u64` nominee ids are modelled as `Nat` (no arithmetic is performed on
  them, so overflow is irrelevant).
* Rust `&str` comparison is byte-wise on UTF-8, which coincides with
  lexicographic comparison of Unicode code points; we model it as
  lexicographic comparison of the character list by code point (`strLe`).
* `Option::unwrap` panics are modelled as `Except` errors.
-/

/-- Lexicographic order (as a Boolean `≤`) on character lists by code point.
This is the order Rust's byte-wise `&str` comparison induces on the decoded
character sequence. -/
def charsLe : List Char → List Char → Bool
  | [], _ => true
  | _ :: _, [] => false
  | a :: as, b :: bs =>
    if a.toNat < b.toNat then true
    else if a = b then charsLe as bs
    else false

/-- Rust `&str` `<=`, modelled on the underlying character data. -/
def strLe (a b : String) : Bool := charsLe a.data b.data

theorem char_toNat_inj {a b : Char} (h : a.toNat = b.toNat) : a = b :=
  Char.ext (UInt32.toNat.inj h)

theorem charsLe_total : ∀ as bs : List Char, charsLe as bs = true ∨ charsLe bs as = true := by
  intro as
  induction as with
  | nil => intro bs; left; rfl
  | cons a as ih =>
    intro bs
    cases bs with
    | nil => right; rfl
    | cons b bs =>
      by_cases hab : a.toNat < b.toNat
      · left; simp [charsLe, hab]
      · by_cases hba : b.toNat < a.toNat
        · right; simp [charsLe, hba]
        · have hn : a.toNat = b.toNat := Nat.le_antisymm (Nat.le_of_not_lt hba) (Nat.le_of_not_lt hab)
          have he : a = b := char_toNat_inj hn
          subst he
          rcases ih bs with h | h
          · left; simp [charsLe, h]
          · right; simp [charsLe, h]

theorem charsLe_trans : ∀ as bs cs : List Char,
    charsLe as bs = true → charsLe bs cs = true → charsLe as cs = true := by
  intro as
  induction as with
  | nil => intro bs cs _ _; rfl
  | cons a as ih =>
    intro bs cs h1 h2
    cases bs with
    | nil => exact Bool.noConfusion h1
    | cons b bs =>
      cases cs with
      | nil => exact Bool.noConfusion h2
      | cons c cs =>
        simp only [charsLe] at h1 h2 ⊢
        by_cases hab : a.toNat < b.toNat
        · by_cases hbc : b.toNat < c.toNat
          · rw [if_pos (Nat.lt_trans hab hbc)]
          · rw [if_neg hbc] at h2
            by_cases hbce : b = c
            · subst hbce
              rw [if_pos hab]
            · rw [if_neg hbce] at h2
              exact Bool.noConfusion h2
        · rw [if_neg hab] at h1
          by_cases habe : a = b
          · subst habe
            rw [if_pos rfl] at h1
            by_cases hac : a.toNat < c.toNat
            · rw [if_pos hac]
            · rw [if_neg hac] at h2 ⊢
              by_cases hace : a = c
              · subst hace
                rw [if_pos rfl] at h2 ⊢
                exact ih bs cs h1 h2
              · rw [if_neg hace] at h2
                exact Bool.noConfusion h2
          · rw [if_neg habe] at h1
            exact Bool.noConfusion h1

theorem charsLe_antisymm : ∀ as bs : List Char,
    charsLe as bs = true → charsLe bs as = true → as = bs := by
  intro as
  induction as with
  | nil =>
    intro bs _ h2
    cases bs with
    | nil => rfl
    | cons b bs => exact Bool.noConfusion h2
  | cons a as ih =>
    intro bs h1 h2
    cases bs with
    | nil => exact Bool.noConfusion h1
    | cons b bs =>
      simp only [charsLe] at h1 h2
      by_cases hab : a.toNat < b.toNat
      · rw [if_neg (Nat.lt_asymm hab)] at h2
        by_cases hba : b = a
        · exact absurd (congrArg Char.toNat hba).symm (Nat.ne_of_lt hab)
        · rw [if_neg hba] at h2
          exact Bool.noConfusion h2
      · rw [if_neg hab] at h1
        by_cases habe : a = b
        · subst habe
          rw [if_pos rfl] at h1
          rw [if_neg (Nat.lt_irrefl a.toNat), if_pos rfl] at h2
          exact congrArg (a :: ·) (ih bs h1 h2)
        · rw [if_neg habe] at h1
          exact Bool.noConfusion h1

theorem strLe_total (a b : String) : strLe a b = true ∨ strLe b a = true :=
  charsLe_total a.data b.data

theorem strLe_trans {a b c : String} (h1 : strLe a b = true) (h2 : strLe b c = true) :
    strLe a c = true :=
  charsLe_trans a.data b.data c.data h1 h2

theorem strLe_antisymm {a b : String} (h1 : strLe a b = true) (h2 : strLe b a = true) :
    a = b := by
  cases a with
  | mk da =>
    cases b with
    | mk db => exact congrArg String.mk (charsLe_antisymm da db h1 h2)

/-- The five phases of an election, in their fixed order
(`ElectionPhase` in `src/process.rs`; `src/main.rs` declares an identical copy). -/
inductive ElectionPhase
  | FirstVote
  | FirstTally
  | SecondVote
  | SecondTally
  | SafetyRound
deriving DecidableEq, Repr

/-- `ElectionPhase::step_next` from `src/process.rs` (the `"next"` arm of
`post_election_step` in `src/main.rs` inlines the identical match). -/
def ElectionPhase.step_next : ElectionPhase → ElectionPhase
  | .FirstVote => .FirstTally
  | .FirstTally => .SecondVote
  | .SecondVote => .SecondTally
  | .SecondTally => .SafetyRound
  | .SafetyRound => .SafetyRound

/-- `ElectionPhase::step_prev` from `src/process.rs` (the `"prev"` arm of
`post_election_step` in `src/main.rs` inlines the identical match). -/
def ElectionPhase.step_prev : ElectionPhase → ElectionPhase
  | .FirstVote => .FirstVote
  | .FirstTally => .FirstVote
  | .SecondVote => .FirstTally
  | .SecondTally => .SecondVote
  | .SafetyRound => .SecondTally

/-- C3. Counterexample to the claim as stated: the claim asserts that
`step_prev ∘ step_next` is the identity away from `FirstVote` and that
`step_next ∘ step_prev` is the identity away from `SafetyRound`.  Both parts
fail: `SafetyRound ≠ FirstVote` yet advance-then-rewind lands on
`SecondTally`, and `FirstVote ≠ SafetyRound` yet rewind-then-advance lands on
`FirstTally`. -/
theorem phase_roundtrip_claim_false :
    (ElectionPhase.SafetyRound ≠ ElectionPhase.FirstVote ∧
      ElectionPhase.SafetyRound.step_next.step_prev ≠ ElectionPhase.SafetyRound) ∧
    (ElectionPhase.FirstVote ≠ ElectionPhase.SafetyRound ∧
      ElectionPhase.FirstVote.step_prev.step_next ≠ ElectionPhase.FirstVote) := by
  decide

/-- C3 (amended). `step_next` then `step_prev` returns to the original phase
for every phase other than `SafetyRound`; `step_prev` then `step_next`
returns to the original phase for every phase other than `FirstVote`
(the saturating boundary is where information is lost in each direction). -/
theorem phase_roundtrip (p : ElectionPhase) :
    (p ≠ ElectionPhase.SafetyRound → p.step_next.step_prev = p) ∧
    (p ≠ ElectionPhase.FirstVote → p.step_prev.step_next = p) := by
  cases p <;> exact ⟨fun h => by first | rfl | exact absurd rfl h,
    fun h => by first | rfl | exact absurd rfl h⟩

/-- C3 witness: the round trips at the concrete phase `SecondVote`. -/
theorem phase_roundtrip_witness :
    ElectionPhase.SecondVote.step_next.step_prev = ElectionPhase.SecondVote ∧
    ElectionPhase.SecondVote.step_prev.step_next = ElectionPhase.SecondVote :=
  ⟨(phase_roundtrip ElectionPhase.SecondVote).1 (by decide),
    (phase_roundtrip ElectionPhase.SecondVote).2 (by decide)⟩

/-- Error raised when a vote references a nominee id absent from the registry.
The spec calls this failure `UnknownNominee`; in `src/process.rs` it surfaces
as the `unwrap` panic in `get_vote`. -/
inductive TallyError
  | UnknownNominee
deriving DecidableEq, Repr

/-- `ElectionProcess` from `src/process.rs` (identical struct in
`src/main.rs`).  The three `HashMap` fields are modelled as association
lists with unique keys. -/
structure ElectionProcess where
  id : String
  phase : ElectionPhase
  elected_role : String
  nominees : List (Nat × String)
  first_round_id : List (String × Nat)
  second_round_id : List (String × Nat)
deriving DecidableEq, Repr

/-- `HashMap::insert`: bind `k` to `v`, overwriting any existing binding. -/
def mapInsert (k : String) (v : Nat) : List (String × Nat) → List (String × Nat)
  | [] => [(k, v)]
  | (k', v') :: rest => if k' = k then (k, v) :: rest else (k', v') :: mapInsert k v rest

/-- Remove consecutive duplicates, keeping the first element of each run —
the semantics of itertools' `dedup()` used in `new_and_cleaned`
(`src/process.rs`) and `post_election` (`src/main.rs`). -/
def dedupConsec {α : Type} [DecidableEq α] : List α → List α
  | [] => []
  | [a] => [a]
  | a :: b :: rest =>
    if a = b then dedupConsec (b :: rest) else a :: dedupConsec (b :: rest)

/-- `ElectionProcess::new_and_cleaned` from `src/process.rs`: discard empty
names, sort, drop consecutive duplicates, and number the survivors `0..N`
in sorted order; phase starts at `FirstVote` with both rounds empty.
Rust's `sorted()` is a stable sort by `&str` order; since two strings
equivalent under that order are equal, every correct sort produces the same
list, and we model it as insertion sort by `strLe`. -/
def ElectionProcess.new_and_cleaned (id elected_role : String) (nominees : List String) :
    ElectionProcess where
  id := id
  phase := .FirstVote
  elected_role := elected_role
  nominees :=
    (dedupConsec ((nominees.filter (fun n => n ≠ "")).insertionSort
      (fun a b => strLe a b = true))).enum
  first_round_id := []
  second_round_id := []

/-- `ElectionProcess::add_vote` from `src/process.rs`: writes into the round
matching the current phase; in every other phase it is a no-op. -/
def ElectionProcess.add_vote (e : ElectionProcess) (voter_name : String) (vote : Nat) :
    ElectionProcess :=
  match e.phase with
  | .FirstVote => { e with first_round_id := mapInsert voter_name vote e.first_round_id }
  | .SecondVote => { e with second_round_id := mapInsert voter_name vote e.second_round_id }
  | _ => e

/-- `ElectionProcess::reset_votes` from `src/process.rs`. -/
def ElectionProcess.reset_votes (e : ElectionProcess) : ElectionProcess :=
  if e.phase = .FirstVote then { e with first_round_id := [] }
  else if e.phase = .SecondVote then { e with second_round_id := [] }
  else e

/-- `ElectionProcess::get_vote` from `src/process.rs`:
`self.nominees.get(&vote).unwrap()`.  The panic on a missing key is modelled
as the `UnknownNominee` error (spec §4.2 `vote_label`). -/
def get_vote (nominees : List (Nat × String)) (vote : Nat) : Except TallyError String :=
  match List.lookup vote nominees with
  | some n => .ok n
  | none => .error .UnknownNominee

/-- `ElectionProcess::vote_count` from `src/process.rs`. -/
def ElectionProcess.vote_count (e : ElectionProcess) : Nat :=
  match e.phase with
  | .FirstVote | .FirstTally => e.first_round_id.length
  | .SecondVote | .SecondTally => e.second_round_id.length
  | .SafetyRound => 0

/-- `ElectionProcess::current_round` from `src/process.rs`. -/
def ElectionProcess.current_round (e : ElectionProcess) : List (String × Nat) :=
  match e.phase with
  | .FirstVote => e.first_round_id
  | .FirstTally => e.first_round_id
  | .SecondVote => e.second_round_id
  | .SecondTally => e.second_round_id
  | .SafetyRound => e.second_round_id

/-- Effectful map over a list in the `Except` monad, failing at the first
error — the shape of an iterator `map` whose body may panic. -/
def mapOk {α β ε : Type} (g : α → Except ε β) : List α → Except ε (List β)
  | [] => .ok []
  | a :: t =>
    match g a with
    | .error e => .error e
    | .ok b => (mapOk g t).map (fun bs => b :: bs)

/-- The comparator of `accumulated_votes` (`src/process.rs` line 210), as a
Boolean `≤` on `(display name, count)` pairs:
`Ord::cmp(&a.1, &b.1).then_with(|| Ord::cmp(&a.0, &b.0).reverse())`, i.e.
ascending count with descending display name as tie-break. -/
def voteLe (a b : String × Nat) : Bool :=
  if a.2 < b.2 then true
  else if a.2 = b.2 then strLe b.1 a.1
  else false

/-- The tally pipeline of `ElectionProcess::accumulated_votes`
(`src/process.rs`), over an explicit round and nominee registry: group the
round's entries by chosen nominee id, count each group, look up display
names (panicking — here erroring — on an unknown id), drop zero counts,
sort by the comparator above, and reverse.  A `HashMap`'s iteration order is
arbitrary; `accumulate_perm` below shows the result does not depend on the
entry order used here.  Rust's `sorted_by` is a stable sort; `voteLe` is
antisymmetric (pairs equivalent under it are equal), so every correct sort
produces the same list, and we model it as insertion sort. -/
def accumulate (nominees : List (Nat × String)) (round : List (String × Nat)) :
    Except TallyError (List (String × Nat)) :=
  match mapOk
      (fun v => (get_vote nominees v).map (fun n => (n, (round.map Prod.snd).count v)))
      ((round.map Prod.snd).dedup) with
  | .error e => .error e
  | .ok pairs =>
    .ok (((pairs.filter (fun p => 0 < p.2)).insertionSort
      (fun a b => voteLe a b = true)).reverse)

/-- `ElectionProcess::accumulated_votes` from `src/process.rs`. -/
def ElectionProcess.accumulated_votes (e : ElectionProcess) :
    Except TallyError (List (String × Nat)) :=
  accumulate e.nominees e.current_round

/-- `AccumulatedVotes::max_votes` from `src/process.rs`:
`results.iter().map(|(_k, v)| *v).max().unwrap_or(1)`. -/
def max_votes (results : List (String × Nat)) : Nat :=
  ((results.map Prod.snd).max?).getD 1

/-- `AccumulatedVotes::all_with_max_votes` from `src/process.rs`. -/
def all_with_max_votes (results : List (String × Nat)) : List String :=
  (results.filter (fun p => p.2 = max_votes results)).map Prod.fst

/-- The `SafetyRound` branch of `eval_election` in `src/main.rs` (lines
421–448): it recomputes the accumulation pipeline inline over
`second_round_id` and reports every nominee with the maximal count. -/
def eval_safety_winners (e : ElectionProcess) : Except TallyError (List String) :=
  (accumulate e.nominees e.second_round_id).map all_with_max_votes

/-- Outcome of the `post_election_step` handler in `src/main.rs`, by HTTP
response: election id missing (404), expected-phase label unparsable (400),
unknown step type (400), expected phase differing from the actual phase
(400 + refresh, the phase-conflict rejection), or the applied transition
(202). -/
inductive StepOutcome
  | notFound
  | unknownPhase
  | invalidStepType
  | phaseConflict
  | accepted
deriving DecidableEq, Repr

/-- `ElectionPhase::from_str`, derived by `strum::EnumString`: a label parses
iff it is a variant's canonical name. -/
def electionPhaseFromStr (s : String) : Option ElectionPhase :=
  if s = "FirstVote" then some .FirstVote
  else if s = "FirstTally" then some .FirstTally
  else if s = "SecondVote" then some .SecondVote
  else if s = "SecondTally" then some .SecondTally
  else if s = "SafetyRound" then some .SafetyRound
  else none

/-- `post_election_step` from `src/main.rs` (lines 202–269).  The db lookup
result is the `Option`; mutex locking and the SSE broadcast are outside the
model.  The `"next"`/`"prev"` arms inline matches identical to
`ElectionPhase::step_next`/`step_prev`, and the `"reset"` arm is identical
to `ElectionProcess::reset_votes`. -/
def post_election_step (election : Option ElectionProcess) (step_type step : String) :
    StepOutcome × Option ElectionProcess :=
  match election with
  | none => (.notFound, none)
  | some e =>
    match electionPhaseFromStr step with
    | none => (.unknownPhase, some e)
    | some expected =>
      if e.phase = expected then
        if step_type = "next" then (.accepted, some { e with phase := e.phase.step_next })
        else if step_type = "prev" then (.accepted, some { e with phase := e.phase.step_prev })
        else if step_type = "reset" then (.accepted, some e.reset_votes)
        else (.invalidStepType, some e)
      else (.phaseConflict, some e)

/-- C2. A transition request whose expected-phase label parses to a phase
different from the process's actual phase yields the phase-conflict outcome
— distinct from `notFound` — and returns the process completely unchanged
(in particular phase and both rounds). -/
theorem step_phase_conflict (e : ElectionProcess) (step_type step : String)
    (expected : ElectionPhase) (hparse : electionPhaseFromStr step = some expected)
    (hne : expected ≠ e.phase) :
    post_election_step (some e) step_type step = (StepOutcome.phaseConflict, some e) ∧
    StepOutcome.phaseConflict ≠ StepOutcome.notFound := by
  constructor
  · rw [post_election_step, hparse]
    exact if_neg (fun h => hne h.symm)
  · decide

/-- C2 witness: a process sitting in `FirstVote` rejects a `next` request
that claims the current phase is `SecondVote`, unchanged. -/
theorem step_phase_conflict_witness :
    post_election_step
        (some (ElectionProcess.mk "e1" ElectionPhase.FirstVote "role" [(0, "Amy")]
          [("v1", 0)] [])) "next" "SecondVote" =
      (StepOutcome.phaseConflict,
        some (ElectionProcess.mk "e1" ElectionPhase.FirstVote "role" [(0, "Amy")]
          [("v1", 0)] [])) ∧
    StepOutcome.phaseConflict ≠ StepOutcome.notFound :=
  step_phase_conflict _ "next" "SecondVote" ElectionPhase.SecondVote (by decide) (by decide)

/-- C10. `vote_count` returns 0 in `SafetyRound` (whatever round 2 holds),
and the size of the phase's round elsewhere: round 1 for
`FirstVote`/`FirstTally`, round 2 for `SecondVote`/`SecondTally`. -/
theorem vote_count_spec (e : ElectionProcess) :
    (e.phase = ElectionPhase.SafetyRound → e.vote_count = 0) ∧
    (e.phase = ElectionPhase.FirstVote ∨ e.phase = ElectionPhase.FirstTally →
      e.vote_count = e.first_round_id.length) ∧
    (e.phase = ElectionPhase.SecondVote ∨ e.phase = ElectionPhase.SecondTally →
      e.vote_count = e.second_round_id.length) := by
  refine ⟨?_, ?_, ?_⟩
  · intro h
    simp [ElectionProcess.vote_count, h]
  · rintro (h | h) <;> simp [ElectionProcess.vote_count, h]
  · rintro (h | h) <;> simp [ElectionProcess.vote_count, h]

/-- C10 witness: in `SafetyRound` the count is 0 even though round 2 is
non-empty (and round 2 is indeed the current round there); in
`FirstTally`/`SecondVote` the counts are the round sizes. -/
theorem vote_count_spec_witness :
    (ElectionProcess.mk "e" ElectionPhase.SafetyRound "r" [(0, "Amy")] []
        [("v1", 0), ("v2", 0)]).vote_count = 0 ∧
    (ElectionProcess.mk "e" ElectionPhase.SafetyRound "r" [(0, "Amy")] []
        [("v1", 0), ("v2", 0)]).second_round_id ≠ [] ∧
    (ElectionProcess.mk "e" ElectionPhase.FirstTally "r" [(0, "Amy")] [("v1", 0)]
        []).vote_count = 1 ∧
    (ElectionProcess.mk "e" ElectionPhase.SecondVote "r" [(0, "Amy")] []
        [("v1", 0), ("v2", 0)]).vote_count = 2 :=
  ⟨(vote_count_spec _).1 rfl, by decide,
    (vote_count_spec _).2.1 (Or.inr rfl),
    (vote_count_spec _).2.2 (Or.inl rfl)⟩

theorem lookup_eq_none_iff (v : Nat) (l : List (Nat × String)) :
    List.lookup v l = none ↔ v ∉ l.map Prod.fst := by
  induction l with
  | nil => simp
  | cons p t ih =>
    obtain ⟨k, n⟩ := p
    by_cases h : v = k
    · subst h
      simp [List.lookup]
    · have hb : (v == k) = false := beq_eq_false_iff_ne.mpr h
      simp [List.lookup, hb, h, Ne.symm h, ih]

/-- C9. `get_vote` (the spec's `vote_label`) returns the display name bound
to a nominee id present in the registry, and fails with `UnknownNominee`
when the id is absent. -/
theorem get_vote_spec (nominees : List (Nat × String)) (v : Nat) :
    (v ∈ nominees.map Prod.fst →
      ∃ n, get_vote nominees v = Except.ok n ∧ List.lookup v nominees = some n) ∧
    (v ∉ nominees.map Prod.fst →
      get_vote nominees v = Except.error TallyError.UnknownNominee) := by
  constructor
  · intro hmem
    match hl : List.lookup v nominees with
    | some n => exact ⟨n, by simp [get_vote, hl], rfl⟩
    | none => exact absurd hmem ((lookup_eq_none_iff v nominees).mp hl)
  · intro hmem
    have hl : List.lookup v nominees = none := (lookup_eq_none_iff v nominees).mpr hmem
    simp [get_vote, hl]

/-- C9 witness: in the registry `{0 ↦ "Amy"}`, id 0 resolves to `"Amy"` and
id 1 fails with `UnknownNominee`. -/
theorem get_vote_spec_witness :
    (∃ n, get_vote [(0, "Amy")] 0 = Except.ok n ∧ List.lookup 0 [(0, "Amy")] = some n) ∧
    get_vote [(0, "Amy")] 1 = Except.error TallyError.UnknownNominee :=
  ⟨(get_vote_spec [(0, "Amy")] 0).1 (by decide),
    (get_vote_spec [(0, "Amy")] 1).2 (by decide)⟩

theorem lookup_mapInsert (k : String) (v : Nat) (l : List (String × Nat)) :
    List.lookup k (mapInsert k v l) = some v := by
  induction l with
  | nil => simp [mapInsert, List.lookup]
  | cons p t ih =>
    obtain ⟨k', v'⟩ := p
    by_cases h : k' = k
    · simp [mapInsert, h, List.lookup]
    · have hb : (k == k') = false := beq_eq_false_iff_ne.mpr (Ne.symm h)
      simp [mapInsert, h, List.lookup, hb, ih]

/-- C4. `add_vote` is a no-op (the whole process unchanged, in particular
both rounds) in `FirstTally`, `SecondTally` and `SafetyRound`; in
`FirstVote` it writes the vote into round 1 leaving round 2 and everything
else unchanged, and symmetrically in `SecondVote`. -/
theorem add_vote_spec (e : ElectionProcess) (voter : String) (v : Nat) :
    (e.phase = ElectionPhase.FirstTally ∨ e.phase = ElectionPhase.SecondTally ∨
        e.phase = ElectionPhase.SafetyRound →
      e.add_vote voter v = e) ∧
    (e.phase = ElectionPhase.FirstVote →
      (e.add_vote voter v).first_round_id = mapInsert voter v e.first_round_id ∧
      List.lookup voter (e.add_vote voter v).first_round_id = some v ∧
      (e.add_vote voter v).second_round_id = e.second_round_id ∧
      (e.add_vote voter v).phase = e.phase ∧
      (e.add_vote voter v).nominees = e.nominees ∧
      (e.add_vote voter v).id = e.id ∧
      (e.add_vote voter v).elected_role = e.elected_role) ∧
    (e.phase = ElectionPhase.SecondVote →
      (e.add_vote voter v).second_round_id = mapInsert voter v e.second_round_id ∧
      List.lookup voter (e.add_vote voter v).second_round_id = some v ∧
      (e.add_vote voter v).first_round_id = e.first_round_id ∧
      (e.add_vote voter v).phase = e.phase ∧
      (e.add_vote voter v).nominees = e.nominees ∧
      (e.add_vote voter v).id = e.id ∧
      (e.add_vote voter v).elected_role = e.elected_role) := by
  refine ⟨?_, ?_, ?_⟩
  · rintro (h | h | h) <;> simp [ElectionProcess.add_vote, h]
  · intro h
    simp [ElectionProcess.add_vote, h, lookup_mapInsert]
  · intro h
    simp [ElectionProcess.add_vote, h, lookup_mapInsert]

/-- C4 witness: `add_vote` leaves a `SafetyRound` (and `FirstTally`) process
untouched, and writes into round 1 for a `FirstVote` process. -/
theorem add_vote_spec_witness :
    (ElectionProcess.mk "e" ElectionPhase.SafetyRound "r" [(0, "Amy")] [("v1", 0)]
        [("v2", 0)]).add_vote "v3" 0 =
      ElectionProcess.mk "e" ElectionPhase.SafetyRound "r" [(0, "Amy")] [("v1", 0)]
        [("v2", 0)] ∧
    (ElectionProcess.mk "e" ElectionPhase.FirstTally "r" [(0, "Amy")] [("v1", 0)]
        []).add_vote "v3" 0 =
      ElectionProcess.mk "e" ElectionPhase.FirstTally "r" [(0, "Amy")] [("v1", 0)] [] ∧
    List.lookup "v3"
        ((ElectionProcess.mk "e" ElectionPhase.FirstVote "r" [(0, "Amy")] [("v1", 0)]
          []).add_vote "v3" 0).first_round_id = some 0 :=
  ⟨(add_vote_spec _ "v3" 0).1 (Or.inr (Or.inr rfl)),
    (add_vote_spec _ "v3" 0).1 (Or.inl rfl),
    ((add_vote_spec _ "v3" 0).2.1 rfl).2.1⟩

/-- C8. `max_votes` is 1 on an empty result list and otherwise the maximum
count present: it is one of the counts and bounds every count. -/
theorem max_votes_spec (results : List (String × Nat)) :
    (results = [] → max_votes results = 1) ∧
    (results ≠ [] →
      max_votes results ∈ results.map Prod.snd ∧
      ∀ c ∈ results.map Prod.snd, c ≤ max_votes results) := by
  constructor
  · intro h
    subst h
    rfl
  · intro h
    match hm : (results.map Prod.snd).max? with
    | none =>
      rw [List.max?_eq_none_iff, List.map_eq_nil_iff] at hm
      exact absurd hm h
    | some m =>
      have hval : max_votes results = m := by simp [max_votes, hm]
      rw [hval]
      refine ⟨List.max?_mem max_choice hm, ?_⟩
      exact ((List.max?_le_iff (fun _ _ _ => max_le_iff) hm).mp (Nat.le_refl m))

/-- C8 witness: the empty accumulation gives 1, and on
`[("Amy", 1), ("Bo", 2)]` the maximum present is returned and dominates
every count. -/
theorem max_votes_spec_witness :
    max_votes [] = 1 ∧
    max_votes [("Amy", 1), ("Bo", 2)] ∈ [("Amy", 1), ("Bo", 2)].map Prod.snd ∧
    ∀ c ∈ [("Amy", 1), ("Bo", 2)].map Prod.snd, c ≤ max_votes [("Amy", 1), ("Bo", 2)] :=
  ⟨(max_votes_spec []).1 rfl,
    ((max_votes_spec [("Amy", 1), ("Bo", 2)]).2 (by decide)).1,
    ((max_votes_spec [("Amy", 1), ("Bo", 2)]).2 (by decide)).2⟩

/-- C7. `current_round` maps `FirstVote`/`FirstTally` to round 1 and
`SecondVote`/`SecondTally`/`SafetyRound` to round 2; consequently the
`SafetyRound` winner readout of `eval_election` (`src/main.rs`) is the
winners of the accumulation of round 2 — exactly `accumulated_votes`
followed by `all_with_max_votes`, not a tally of an empty round. -/
theorem current_round_spec (e : ElectionProcess) :
    (e.phase = ElectionPhase.FirstVote → e.current_round = e.first_round_id) ∧
    (e.phase = ElectionPhase.FirstTally → e.current_round = e.first_round_id) ∧
    (e.phase = ElectionPhase.SecondVote → e.current_round = e.second_round_id) ∧
    (e.phase = ElectionPhase.SecondTally → e.current_round = e.second_round_id) ∧
    (e.phase = ElectionPhase.SafetyRound →
      e.current_round = e.second_round_id ∧
      eval_safety_winners e = (e.accumulated_votes).map all_with_max_votes) := by
  refine ⟨?_, ?_, ?_, ?_, ?_⟩ <;> intro h
  · simp [ElectionProcess.current_round, h]
  · simp [ElectionProcess.current_round, h]
  · simp [ElectionProcess.current_round, h]
  · simp [ElectionProcess.current_round, h]
  · have hr : e.current_round = e.second_round_id := by
      simp [ElectionProcess.current_round, h]
    exact ⟨hr, by rw [eval_safety_winners, ElectionProcess.accumulated_votes, hr]⟩

/-- C7 witness: the mapping at one concrete process per phase, and the
`SafetyRound` winner readout over a non-empty round 2. -/
theorem current_round_spec_witness :
    (ElectionProcess.mk "e" ElectionPhase.FirstVote "r" [(0, "Amy")] [("v1", 0)]
        [("v2", 0)]).current_round = [("v1", 0)] ∧
    (ElectionProcess.mk "e" ElectionPhase.FirstTally "r" [(0, "Amy")] [("v1", 0)]
        [("v2", 0)]).current_round = [("v1", 0)] ∧
    (ElectionProcess.mk "e" ElectionPhase.SecondVote "r" [(0, "Amy")] [("v1", 0)]
        [("v2", 0)]).current_round = [("v2", 0)] ∧
    (ElectionProcess.mk "e" ElectionPhase.SecondTally "r" [(0, "Amy")] [("v1", 0)]
        [("v2", 0)]).current_round = [("v2", 0)] ∧
    (ElectionProcess.mk "e" ElectionPhase.SafetyRound "r" [(0, "Amy")] [("v1", 0)]
        [("v2", 0)]).current_round = [("v2", 0)] ∧
    eval_safety_winners
        (ElectionProcess.mk "e" ElectionPhase.SafetyRound "r" [(0, "Amy")] [("v1", 0)]
          [("v2", 0)]) =
      ((ElectionProcess.mk "e" ElectionPhase.SafetyRound "r" [(0, "Amy")] [("v1", 0)]
          [("v2", 0)]).accumulated_votes).map all_with_max_votes :=
  ⟨(current_round_spec _).1 rfl, (current_round_spec _).2.1 rfl,
    (current_round_spec _).2.2.1 rfl, (current_round_spec _).2.2.2.1 rfl,
    ((current_round_spec _).2.2.2.2 rfl).1, ((current_round_spec _).2.2.2.2 rfl).2⟩

theorem voteLe_trans : ∀ a b c : String × Nat,
    voteLe a b = true → voteLe b c = true → voteLe a c = true := by
  intro a b c h1 h2
  simp only [voteLe] at h1 h2 ⊢
  by_cases h12 : a.2 < b.2
  · by_cases h23 : b.2 < c.2
    · rw [if_pos (Nat.lt_trans h12 h23)]
    · rw [if_neg h23] at h2
      by_cases h23e : b.2 = c.2
      · have hac : a.2 < c.2 := by rw [← h23e]; exact h12
        rw [if_pos hac]
      · rw [if_neg h23e] at h2
        exact Bool.noConfusion h2
  · rw [if_neg h12] at h1
    by_cases h12e : a.2 = b.2
    · rw [if_pos h12e] at h1
      by_cases h23 : b.2 < c.2
      · have hac : a.2 < c.2 := by rw [h12e]; exact h23
        rw [if_pos hac]
      · rw [if_neg h23] at h2
        by_cases h23e : b.2 = c.2
        · have hac : a.2 = c.2 := h12e.trans h23e
          have hnlt : ¬ a.2 < c.2 := by rw [hac]; exact Nat.lt_irrefl _
          rw [if_pos h23e] at h2
          rw [if_neg hnlt, if_pos hac]
          exact strLe_trans h2 h1
        · rw [if_neg h23e] at h2
          exact Bool.noConfusion h2
    · rw [if_neg h12e] at h1
      exact Bool.noConfusion h1

theorem voteLe_total : ∀ a b : String × Nat, voteLe a b = true ∨ voteLe b a = true := by
  intro a b
  rcases Nat.lt_trichotomy a.2 b.2 with h | h | h
  · left
    simp [voteLe, h]
  · have hn1 : ¬ a.2 < b.2 := by rw [h]; exact Nat.lt_irrefl _
    have hn2 : ¬ b.2 < a.2 := by rw [h]; exact Nat.lt_irrefl _
    rcases strLe_total b.1 a.1 with hs | hs
    · left
      simp [voteLe, hn1, h, hs]
    · right
      simp [voteLe, hn2, h.symm, hs]
  · right
    simp [voteLe, h]

theorem voteLe_antisymm : ∀ a b : String × Nat,
    voteLe a b = true → voteLe b a = true → a = b := by
  intro a b h1 h2
  simp only [voteLe] at h1 h2
  by_cases h12 : a.2 < b.2
  · rw [if_neg (Nat.lt_asymm h12), if_neg (fun h => Nat.ne_of_lt h12 h.symm)] at h2
    exact Bool.noConfusion h2
  · rw [if_neg h12] at h1
    by_cases h12e : a.2 = b.2
    · rw [if_pos h12e] at h1
      have hn2 : ¬ b.2 < a.2 := by rw [h12e]; exact Nat.lt_irrefl _
      rw [if_neg hn2, if_pos h12e.symm] at h2
      exact Prod.ext (strLe_antisymm h2 h1) h12e
    · rw [if_neg h12e] at h1
      exact Bool.noConfusion h1

instance : IsTrans (String × Nat) (fun a b => voteLe a b = true) := ⟨voteLe_trans⟩

instance : IsTotal (String × Nat) (fun a b => voteLe a b = true) := ⟨voteLe_total⟩

instance : IsAntisymm (String × Nat) (fun a b => voteLe a b = true) := ⟨voteLe_antisymm⟩

instance : IsTrans String (fun a b => strLe a b = true) := ⟨fun _ _ _ => strLe_trans⟩

instance : IsTotal String (fun a b => strLe a b = true) := ⟨strLe_total⟩

instance : IsAntisymm String (fun a b => strLe a b = true) := ⟨fun _ _ => strLe_antisymm⟩

theorem mem_dedupConsec {α : Type} [DecidableEq α] :
    ∀ (l : List α) (x : α), x ∈ dedupConsec l ↔ x ∈ l
  | [], x => by simp [dedupConsec]
  | [a], x => by simp [dedupConsec]
  | a :: b :: rest, x => by
    by_cases h : a = b
    · subst h
      rw [show dedupConsec (a :: a :: rest) = dedupConsec (a :: rest) by
        simp [dedupConsec]]
      rw [mem_dedupConsec (a :: rest) x]
      simp [or_assoc]
    · rw [show dedupConsec (a :: b :: rest) = a :: dedupConsec (b :: rest) by
        simp [dedupConsec, h]]
      simp [mem_dedupConsec (b :: rest) x]

theorem sorted_dedupConsec :
    ∀ l : List String, l.Pairwise (fun a b => strLe a b = true) →
      (dedupConsec l).Pairwise (fun a b => strLe a b = true ∧ a ≠ b)
  | [] => fun _ => by simp [dedupConsec]
  | [a] => fun _ => by simp [dedupConsec]
  | a :: b :: rest => fun hp => by
    by_cases h : a = b
    · subst h
      rw [show dedupConsec (a :: a :: rest) = dedupConsec (a :: rest) by
        simp [dedupConsec]]
      exact sorted_dedupConsec (a :: rest) hp.tail
    · rw [show dedupConsec (a :: b :: rest) = a :: dedupConsec (b :: rest) by
        simp [dedupConsec, h]]
      refine List.Pairwise.cons ?_ (sorted_dedupConsec (b :: rest) hp.tail)
      intro x hx
      have hxmem : x ∈ b :: rest := (mem_dedupConsec _ x).mp hx
      have hax : strLe a x = true := List.rel_of_pairwise_cons hp hxmem
      refine ⟨hax, fun hae => ?_⟩
      rcases List.mem_cons.mp hxmem with hxb | hxr
      · exact h (hae.trans hxb)
      · have hbx : strLe b x = true := List.rel_of_pairwise_cons hp.tail hxr
        have hab : strLe a b = true := List.rel_of_pairwise_cons hp (List.mem_cons_self b rest)
        have hba : strLe b a = true := hae ▸ hbx
        exact h (strLe_antisymm hab hba)

/-- C5. `new_and_cleaned` starts in `FirstVote` with both rounds empty; its
nominee registry assigns exactly the ids `0..N` in order, the display names
are strictly ascending in Rust string order (hence sorted and
duplicate-free), a name appears iff it is a non-empty entry of the input,
and the registry is determined by the input name list alone. -/
theorem new_and_cleaned_spec (id role : String) (raw : List String) :
    (ElectionProcess.new_and_cleaned id role raw).phase = ElectionPhase.FirstVote ∧
    (ElectionProcess.new_and_cleaned id role raw).first_round_id = [] ∧
    (ElectionProcess.new_and_cleaned id role raw).second_round_id = [] ∧
    (ElectionProcess.new_and_cleaned id role raw).nominees.map Prod.fst =
      List.range (ElectionProcess.new_and_cleaned id role raw).nominees.length ∧
    ((ElectionProcess.new_and_cleaned id role raw).nominees.map Prod.snd).Pairwise
      (fun a b => strLe a b = true ∧ a ≠ b) ∧
    (∀ n, n ∈ (ElectionProcess.new_and_cleaned id role raw).nominees.map Prod.snd ↔
      (n ∈ raw ∧ n ≠ "")) ∧
    (∀ id2 role2, (ElectionProcess.new_and_cleaned id2 role2 raw).nominees =
      (ElectionProcess.new_and_cleaned id role raw).nominees) := by
  refine ⟨rfl, rfl, rfl, ?_, ?_, ?_, fun _ _ => rfl⟩
  · rw [ElectionProcess.new_and_cleaned]
    rw [List.enum_map_fst, List.enum_length]
  · rw [ElectionProcess.new_and_cleaned]
    rw [List.enum_map_snd]
    exact sorted_dedupConsec _
      (List.sorted_insertionSort (fun a b => strLe a b = true) _)
  · intro n
    rw [ElectionProcess.new_and_cleaned]
    rw [List.enum_map_snd, mem_dedupConsec,
      (List.perm_insertionSort (fun a b => strLe a b = true) _).mem_iff]
    simp

theorem voteLe_eq_true_iff (a b : String × Nat) :
    voteLe a b = true ↔ (a.2 < b.2 ∨ (a.2 = b.2 ∧ strLe b.1 a.1 = true)) := by
  simp only [voteLe]
  by_cases h1 : a.2 < b.2
  · simp [h1]
  · by_cases h2 : a.2 = b.2
    · simp [h1, h2]
    · simp [h1, h2]

theorem mapOk_perm {α β : Type} (g : α → Except TallyError β) {l1 l2 : List α}
    (h : l1.Perm l2) :
    (mapOk g l1 = Except.error TallyError.UnknownNominee ∧
      mapOk g l2 = Except.error TallyError.UnknownNominee) ∨
    (∃ bs1 bs2, mapOk g l1 = Except.ok bs1 ∧ mapOk g l2 = Except.ok bs2 ∧ bs1.Perm bs2) := by
  induction h with
  | nil => exact Or.inr ⟨[], [], rfl, rfl, List.Perm.nil⟩
  | cons a hperm ih =>
    cases hg : g a with
    | error e =>
      cases e
      exact Or.inl ⟨by simp [mapOk, hg], by simp [mapOk, hg]⟩
    | ok b =>
      rcases ih with ⟨h1, h2⟩ | ⟨bs1, bs2, h1, h2, hp⟩
      · exact Or.inl ⟨by simp [mapOk, hg, h1, Except.map], by simp [mapOk, hg, h2, Except.map]⟩
      · exact Or.inr ⟨b :: bs1, b :: bs2, by simp [mapOk, hg, h1, Except.map],
          by simp [mapOk, hg, h2, Except.map], hp.cons b⟩
  | swap x y l =>
    cases hgy : g y with
    | error e =>
      cases e
      cases hgx : g x with
      | error e' =>
        cases e'
        exact Or.inl ⟨by simp [mapOk, hgy], by simp [mapOk, hgx, hgy]⟩
      | ok bx =>
        exact Or.inl ⟨by simp [mapOk, hgy], by simp [mapOk, hgx, hgy, Except.map]⟩
    | ok bb =>
      cases hgx : g x with
      | error e' =>
        cases e'
        exact Or.inl ⟨by simp [mapOk, hgx, hgy, Except.map],
          by simp [mapOk, hgx, hgy, Except.map]⟩
      | ok bx =>
        cases hrest : mapOk g l with
        | error e =>
          cases e
          exact Or.inl ⟨by simp [mapOk, hgx, hgy, hrest, Except.map],
            by simp [mapOk, hgx, hgy, hrest, Except.map]⟩
        | ok bs =>
          exact Or.inr ⟨bb :: bx :: bs, bx :: bb :: bs,
            by simp [mapOk, hgx, hgy, hrest, Except.map],
            by simp [mapOk, hgx, hgy, hrest, Except.map],
            List.Perm.swap bx bb bs⟩
  | trans hab hbc ih1 ih2 =>
    rcases ih1 with ⟨ha1, ha2⟩ | ⟨bs1, bs2, ha1, ha2, hpa⟩ <;>
      rcases ih2 with ⟨hb1, hb2⟩ | ⟨cs1, cs2, hb1, hb2, hpb⟩
    · exact Or.inl ⟨ha1, hb2⟩
    · rw [ha2] at hb1
      exact absurd hb1 (by simp)
    · rw [ha2] at hb1
      exact absurd hb1 (by simp)
    · rw [ha2] at hb1
      have hbs : bs2 = cs1 := Except.ok.inj hb1
      exact Or.inr ⟨bs1, cs2, ha1, hb2, hpa.trans (hbs ▸ hpb)⟩

theorem mapOk_eq_ok_mem {α β : Type} {g : α → Except TallyError β} :
    ∀ {l : List α} {bs : List β}, mapOk g l = Except.ok bs →
      ∀ b, b ∈ bs ↔ ∃ a ∈ l, g a = Except.ok b := by
  intro l
  induction l with
  | nil =>
    intro bs h b
    have : bs = [] := (Except.ok.inj h).symm
    subst this
    simp
  | cons a t ih =>
    intro bs h b
    cases hg : g a with
    | error e =>
      rw [mapOk, hg] at h
      exact absurd h (by simp)
    | ok b' =>
      rw [mapOk, hg] at h
      cases hrest : mapOk g t with
      | error e =>
        rw [hrest] at h
        exact absurd h (by simp [Except.map])
      | ok bs' =>
        rw [hrest] at h
        have hbs : bs = b' :: bs' := by
          simp only [Except.map] at h
          exact (Except.ok.inj h).symm
        subst hbs
        constructor
        · intro hb
          rcases List.mem_cons.mp hb with hb | hb
          · exact ⟨a, List.mem_cons_self a t, hb ▸ hg⟩
          · obtain ⟨a', ha', hga'⟩ := (ih hrest b).mp hb
            exact ⟨a', List.mem_cons_of_mem a ha', hga'⟩
        · rintro ⟨a', ha', hga'⟩
          rcases List.mem_cons.mp ha' with ha' | ha'
          · subst ha'
            rw [hg] at hga'
            exact List.mem_cons.mpr (Or.inl (Except.ok.inj hga').symm)
          · exact List.mem_cons_of_mem b' ((ih hrest b).mpr ⟨a', ha', hga'⟩)

/-- C1. Counterexample to the claim as stated: on registry
`{0 ↦ "Amy", 1 ↦ "Bo"}` and round `{"v1" ↦ 0, "v2" ↦ 1}` the accumulation
yields `[("Amy", 1), ("Bo", 1)]`, not the claimed `[("Bo", 1), ("Amy", 1)]`:
the comparator sorts ascending by count with descending-name tie-break, and
the final `rev()` therefore produces descending count with an *ascending*
name tie-break. -/
theorem accumulate_tiebreak_claim_false :
    accumulate [(0, "Amy"), (1, "Bo")] [("v1", 0), ("v2", 1)] =
      Except.ok [("Amy", 1), ("Bo", 1)] ∧
    accumulate [(0, "Amy"), (1, "Bo")] [("v1", 0), ("v2", 1)] ≠
      Except.ok [("Bo", 1), ("Amy", 1)] := by
  have hval : accumulate [(0, "Amy"), (1, "Bo")] [("v1", 0), ("v2", 1)] =
      Except.ok [("Amy", 1), ("Bo", 1)] := rfl
  refine ⟨hval, fun hcontra => ?_⟩
  have hlist := Except.ok.inj (hval.symm.trans hcontra)
  exact absurd hlist (by decide)

/-- C1 (amended). A successful accumulation groups the round's entries by
chosen nominee id, counts each group, drops zero counts, and is sorted by
descending count with ties broken by nominee display name in *ascending*
order: a pair belongs to the result exactly when its name is the registry
name of some id voted for in the round and its count is that id's number of
votes. -/
theorem accumulate_spec (nominees : List (Nat × String)) (round : List (String × Nat))
    (res : List (String × Nat)) (h : accumulate nominees round = Except.ok res) :
    res.Pairwise (fun a b => b.2 < a.2 ∨ (a.2 = b.2 ∧ strLe a.1 b.1 = true)) ∧
    (∀ p ∈ res, 0 < p.2) ∧
    (∀ p : String × Nat, p ∈ res ↔
      ∃ v, v ∈ round.map Prod.snd ∧ List.lookup v nominees = some p.1 ∧
        p.2 = (round.map Prod.snd).count v) := by
  rw [accumulate] at h
  cases hm : mapOk (fun v => (get_vote nominees v).map
      (fun n => (n, (round.map Prod.snd).count v))) ((round.map Prod.snd).dedup) with
  | error e =>
    rw [hm] at h
    exact absurd h (by simp)
  | ok pairs =>
    rw [hm] at h
    have hres : res = ((pairs.filter (fun p => 0 < p.2)).insertionSort
        (fun a b => voteLe a b = true)).reverse := (Except.ok.inj h).symm
    subst hres
    refine ⟨?_, ?_, ?_⟩
    · rw [List.pairwise_reverse]
      refine (List.sorted_insertionSort (fun a b => voteLe a b = true) _).imp ?_
      intro a b hab
      rcases (voteLe_eq_true_iff a b).mp hab with hlt | ⟨heq, hs⟩
      · exact Or.inl hlt
      · exact Or.inr ⟨heq.symm, hs⟩
    · intro p hp
      have hp1 : p ∈ pairs.filter (fun p => 0 < p.2) :=
        ((List.perm_insertionSort (fun a b => voteLe a b = true) _).mem_iff).mp
          (List.mem_reverse.mp hp)
      simpa using (List.mem_filter.mp hp1).2
    · intro p
      constructor
      · intro hp
        have hp1 : p ∈ pairs.filter (fun p => 0 < p.2) :=
          ((List.perm_insertionSort (fun a b => voteLe a b = true) _).mem_iff).mp
            (List.mem_reverse.mp hp)
        have hp2 : p ∈ pairs := List.mem_of_mem_filter hp1
        obtain ⟨v, hv, hgv⟩ := (mapOk_eq_ok_mem hm p).mp hp2
        cases hl : List.lookup v nominees with
        | none =>
          rw [get_vote, hl] at hgv
          exact absurd hgv (by simp [Except.map])
        | some n =>
          have hok : (get_vote nominees v).map
              (fun n => (n, (round.map Prod.snd).count v)) =
              Except.ok (n, (round.map Prod.snd).count v) := by
            rw [get_vote, hl]
            rfl
          have hpn : ((n, (round.map Prod.snd).count v) : String × Nat) = p :=
            Except.ok.inj (hok.symm.trans hgv)
          subst hpn
          exact ⟨v, List.mem_dedup.mp hv, hl, rfl⟩
      · rintro ⟨v, hv, hl, hc⟩
        have h1 : get_vote nominees v = Except.ok p.1 := by rw [get_vote, hl]
        have hg : (get_vote nominees v).map
            (fun n => (n, (round.map Prod.snd).count v)) = Except.ok p := by
          rw [h1]
          show Except.ok (p.1, (round.map Prod.snd).count v) = Except.ok p
          rw [← hc]
        have hp2 : p ∈ pairs := (mapOk_eq_ok_mem hm p).mpr
          ⟨v, List.mem_dedup.mpr hv, hg⟩
        have h0 : 0 < p.2 := by
          rw [hc]
          exact List.count_pos_iff.mpr hv
        have hp1 : p ∈ pairs.filter (fun p => 0 < p.2) :=
          List.mem_filter.mpr ⟨hp2, by simpa using h0⟩
        exact List.mem_reverse.mpr
          (((List.perm_insertionSort (fun a b => voteLe a b = true) _).mem_iff).mpr hp1)

/-- C1 witness: the amended ordering and grouping facts instantiated on the
tie-break example, whose accumulation is `[("Amy", 1), ("Bo", 1)]`. -/
theorem accumulate_spec_witness :
    ([("Amy", 1), ("Bo", 1)] : List (String × Nat)).Pairwise
      (fun a b => b.2 < a.2 ∨ (a.2 = b.2 ∧ strLe a.1 b.1 = true)) ∧
    (∀ p ∈ ([("Amy", 1), ("Bo", 1)] : List (String × Nat)), 0 < p.2) ∧
    (∀ p : String × Nat, p ∈ ([("Amy", 1), ("Bo", 1)] : List (String × Nat)) ↔
      ∃ v, v ∈ [("v1", 0), ("v2", 1)].map Prod.snd ∧
        List.lookup v [(0, "Amy"), (1, "Bo")] = some p.1 ∧
        p.2 = ([("v1", 0), ("v2", 1)].map Prod.snd).count v) :=
  accumulate_spec [(0, "Amy"), (1, "Bo")] [("v1", 0), ("v2", 1)]
    [("Amy", 1), ("Bo", 1)] rfl

/-- C6. `accumulate` is invariant under reordering of the round's entries
(two association lists holding the same voter-to-nominee entries in any
order tally identically, errors included), for a fixed registry; being a
pure function, re-running it on unchanged input trivially yields the same
ordered result. -/
theorem accumulate_perm (nominees : List (Nat × String)) (l1 l2 : List (String × Nat))
    (h : l1.Perm l2) : accumulate nominees l1 = accumulate nominees l2 := by
  have hvals : (l1.map Prod.snd).Perm (l2.map Prod.snd) := h.map Prod.snd
  have hg : (fun v => (get_vote nominees v).map (fun n => (n, (l1.map Prod.snd).count v)))
      = (fun v => (get_vote nominees v).map (fun n => (n, (l2.map Prod.snd).count v))) := by
    funext v
    rw [hvals.count_eq v]
  have hids := hvals.dedup
  rw [accumulate, accumulate, hg]
  rcases mapOk_perm (fun v => (get_vote nominees v).map
      (fun n => (n, (l2.map Prod.snd).count v))) hids with ⟨h1, h2⟩ | ⟨bs1, bs2, h1, h2, hp⟩
  · rw [h1, h2]
  · rw [h1, h2]
    show Except.ok (((bs1.filter (fun p => 0 < p.2)).insertionSort
        (fun a b => voteLe a b = true)).reverse) =
      Except.ok (((bs2.filter (fun p => 0 < p.2)).insertionSort
        (fun a b => voteLe a b = true)).reverse)
    have hperm : (bs1.filter (fun p => 0 < p.2)).Perm (bs2.filter (fun p => 0 < p.2)) :=
      hp.filter _
    have he : (bs1.filter (fun p => 0 < p.2)).insertionSort (fun a b => voteLe a b = true)
        = (bs2.filter (fun p => 0 < p.2)).insertionSort (fun a b => voteLe a b = true) :=
      List.eq_of_perm_of_sorted
        ((List.perm_insertionSort _ _).trans
          (hperm.trans (List.perm_insertionSort _ _).symm))
        (List.sorted_insertionSort _ _) (List.sorted_insertionSort _ _)
    rw [he]

/-- C6 witness: the two orderings of the round `{"v1" ↦ 0, "v2" ↦ 1}` tally
identically. -/
theorem accumulate_perm_witness :
    accumulate [(0, "Amy"), (1, "Bo")] [("v1", 0), ("v2", 1)] =
      accumulate [(0, "Amy"), (1, "Bo")] [("v2", 1), ("v1", 0)] :=
  accumulate_perm [(0, "Amy"), (1, "Bo")] [("v1", 0), ("v2", 1)] [("v2", 1), ("v1", 0)]
    (by decide)
